import Mathlib

/-!
Verification of `encoder_bridge.py`: a serial-to-WebSocket bridge.
The development embeds the line framer, the event decoder (a model of
Python `json.loads` restricted to the behavior the bridge relies on),
and the broadcast fan-out loop of `serial_reader_task`, together with
the `health` endpoint, and proves the specified properties about them.

Bytes are modelled as `Nat` (values 0..255), Python `str` as `List Char`,
and the subscriber set `clients` as a duplicate-free `List Nat`.
-/

/-! ### Line framer (`serial_reader_task`, lines 149-161)

The Python loop keeps a byte buffer `buff`; each serial chunk is appended
and then `while b"\n" in buff: line, buff = buff.split(b"\n", 1)` peels
off complete records. -/

/-- Number of newline bytes in a buffer; used as (exact) fuel for the
drain loop, since each `split(b"\n", 1)` consumes one newline. -/
def countNL (l : List Nat) : Nat := l.count 10

/-- Python `buff.split(b"\n", 1)` combined with the `b"\n" in buff` test:
`some (line, rest)` when a newline exists, `none` otherwise. -/
def splitFirstNL : List Nat → Option (List Nat × List Nat)
  | [] => none
  | b :: bs =>
    if b = 10 then some ([], bs)
    else
      match splitFirstNL bs with
      | none => none
      | some (l, r) => some (b :: l, r)

/-- The `while b"\n" in buff` drain loop, with explicit fuel: returns the
complete records split off (in order) and the final buffer. -/
def drainF : Nat → List Nat → List (List Nat) × List Nat
  | 0, buff => ([], buff)
  | f + 1, buff =>
    match splitFirstNL buff with
    | none => ([], buff)
    | some (l, r) =>
      let p := drainF f r
      (l :: p.1, p.2)

/-- The drain loop run to completion (`countNL` newlines = loop iterations). -/
def drain (buff : List Nat) : List (List Nat) × List Nat :=
  drainF (countNL buff) buff

/-- Feeding a sequence of serial chunks through the reader loop:
`if not chunk: continue` (the 10ms backoff emits nothing), else
`buff += chunk` followed by the drain loop. Returns all records emitted
and the final buffer. -/
def processChunks (buff : List Nat) : List (List Nat) → List (List Nat) × List Nat
  | [] => ([], buff)
  | c :: cs =>
    if c = [] then processChunks buff cs
    else
      let p := drain (buff ++ c)
      let q := processChunks p.2 cs
      (p.1 ++ q.1, q.2)

/-! Canonical (chunk-free) description of newline splitting, used to prove
that `processChunks` does not observe chunk boundaries: `splitSpec l`
is (complete records of `l`, trailing partial record). -/

/-- Specification-side splitter: all newline-terminated records of a byte
sequence together with the trailing unterminated remainder. -/
def splitSpec : List Nat → List (List Nat) × List Nat
  | [] => ([], [])
  | b :: bs =>
    let p := splitSpec bs
    if b = 10 then ([] :: p.1, p.2)
    else
      match p.1 with
      | [] => ([], b :: p.2)
      | x :: xs => ((b :: x) :: xs, p.2)

/-- Prepend a partial record to the first segment of a split result. -/
def consFirst (p : List Nat) (s : List (List Nat) × List Nat) :
    List (List Nat) × List Nat :=
  match s.1 with
  | [] => ([], p ++ s.2)
  | x :: xs => ((p ++ x) :: xs, s.2)

/-! ### Record post-processing (`serial_reader_task`, lines 159-161)

`txt = line.strip().decode("utf-8", "ignore")` followed by
`if not txt: continue`. -/

/-- The six ASCII whitespace bytes stripped by Python `bytes.strip()`. -/
def isPySpace (b : Nat) : Bool :=
  b == 32 || b == 9 || b == 10 || b == 11 || b == 12 || b == 13

/-- Python `line.strip()` on bytes: remove leading and trailing ASCII
whitespace bytes. -/
def stripBytes (l : List Nat) : List Nat :=
  ((l.dropWhile isPySpace).reverse.dropWhile isPySpace).reverse

/-- Continuation byte test for UTF-8 (`0x80..0xBF`). -/
def contByte (b : Nat) : Bool := 128 ≤ b && b ≤ 191

/-- Decode one UTF-8 sequence at the head of the byte list, with CPython's
constraints (no overlong forms, no surrogates, max U+10FFFF): lead bytes
0xC2-0xDF, 0xE0 (second byte 0xA0-0xBF), 0xED (second byte 0x80-0x9F),
0xF0 (second byte 0x90-0xBF), 0xF4 (second byte 0x80-0x8F), etc. -/
def tryDecodeAt : List Nat → Option (Nat × List Nat)
  | [] => none
  | b1 :: r =>
    if b1 ≤ 127 then some (b1, r)
    else if 194 ≤ b1 ∧ b1 ≤ 223 then
      match r with
      | b2 :: r2 =>
        if contByte b2 then some ((b1 - 192) * 64 + (b2 - 128), r2) else none
      | [] => none
    else if 224 ≤ b1 ∧ b1 ≤ 239 then
      match r with
      | b2 :: b3 :: r2 =>
        let lo2 : Nat := if b1 = 224 then 160 else 128
        let hi2 : Nat := if b1 = 237 then 159 else 191
        if lo2 ≤ b2 ∧ b2 ≤ hi2 ∧ contByte b3 then
          some ((b1 - 224) * 4096 + (b2 - 128) * 64 + (b3 - 128), r2)
        else none
      | _ => none
    else if 240 ≤ b1 ∧ b1 ≤ 244 then
      match r with
      | b2 :: b3 :: b4 :: r2 =>
        let lo2 : Nat := if b1 = 240 then 144 else 128
        let hi2 : Nat := if b1 = 244 then 143 else 191
        if lo2 ≤ b2 ∧ b2 ≤ hi2 ∧ contByte b3 ∧ contByte b4 then
          some ((b1 - 240) * 262144 + (b2 - 128) * 4096 + (b3 - 128) * 64
            + (b4 - 128), r2)
        else none
      | _ => none
    else none

/-- Python `.decode("utf-8", "ignore")` with explicit fuel (one unit per
byte suffices: every step consumes at least one byte). The "ignore"
handler drops the offending bytes; skipping a single byte on failure is
extensionally the same as CPython's skip-maximal-subpart rule, because a
maximal subpart never has a suffix that starts a valid sequence. -/
def decodeUtf8IgnoreF : Nat → List Nat → List Char
  | 0, _ => []
  | _, [] => []
  | f + 1, l =>
    match tryDecodeAt l with
    | some p => Char.ofNat p.1 :: decodeUtf8IgnoreF f p.2
    | none => decodeUtf8IgnoreF f l.tail

/-- Python `.decode("utf-8", "ignore")`. -/
def pyDecode (l : List Nat) : List Char := decodeUtf8IgnoreF l.length l

/-- Lines 159-161: strip, decode, and skip the record when the resulting
text is empty (`if not txt: continue`). -/
def toRecord (line : List Nat) : Option (List Char) :=
  let txt := pyDecode (stripBytes line)
  if txt.isEmpty then none else some txt

/-- The text records produced by feeding the given serial chunks to the
reader loop: frame on newlines, then strip/decode/skip-empty. -/
def frameRecords (cs : List (List Nat)) : List (List Char) :=
  ((processChunks [] cs).1).filterMap toRecord

/-! ### Event decoder (`serial_reader_task`, lines 162-165)

A model of Python `json.loads` (CPython `json` module defaults): JSON
values with Python's extras (`NaN`, `Infinity`, `-Infinity`), objects as
insertion-ordered key/value lists with last-value-wins on duplicate keys,
integer literals as `Int`. Non-integer numeric literals are kept as their
lexeme (the bridge never computes with them, so float arithmetic is not
modelled). -/

inductive JVal : Type where
  | jnull : JVal
  | jbool : Bool → JVal
  | jint : Int → JVal
  | jfloat : String → JVal
  | jstr : String → JVal
  | jarr : List JVal → JVal
  | jobj : List (String × JVal) → JVal

/-- JSON whitespace accepted between tokens by `json.loads`. -/
def isJsonWs (c : Char) : Bool := c = ' ' || c = '\t' || c = '\n' || c = '\r'

/-- Skip JSON whitespace. -/
def skipWs (cs : List Char) : List Char := cs.dropWhile isJsonWs

/-- ASCII digit test. -/
def isDigitC (c : Char) : Bool := 48 ≤ c.toNat && c.toNat ≤ 57

/-- Numeric value of an ASCII digit. -/
def digitVal (c : Char) : Nat := c.toNat - 48

/-- Value of a hex digit, if any. -/
def hexVal (c : Char) : Option Nat :=
  if 48 ≤ c.toNat ∧ c.toNat ≤ 57 then some (c.toNat - 48)
  else if 97 ≤ c.toNat ∧ c.toNat ≤ 102 then some (c.toNat - 87)
  else if 65 ≤ c.toNat ∧ c.toNat ≤ 70 then some (c.toNat - 55)
  else none

/-- CPython `py_scanstring` after the opening quote (fuel-indexed body;
every step consumes at least one character, so fuel = length suffices):
content up to the closing quote. Strict mode: unescaped control
characters (< 0x20) are errors; escapes are the eight short ones plus
`\uXXXX`, with surrogate pairs combined. Lean `Char` cannot hold a lone
surrogate, so those fall to `Char.ofNat`'s default; no claim exercises
that corner. -/
def parseStrBodyF : Nat → List Char → Option (List Char × List Char)
  | 0, _ => none
  | _ + 1, [] => none
  | _ + 1, '"' :: rest => some ([], rest)
  | f + 1, '\\' :: esc =>
    match esc with
    | '"' :: r => (parseStrBodyF f r).map (fun p => ('"' :: p.1, p.2))
    | '\\' :: r => (parseStrBodyF f r).map (fun p => ('\\' :: p.1, p.2))
    | '/' :: r => (parseStrBodyF f r).map (fun p => ('/' :: p.1, p.2))
    | 'b' :: r => (parseStrBodyF f r).map (fun p => (Char.ofNat 8 :: p.1, p.2))
    | 'f' :: r => (parseStrBodyF f r).map (fun p => (Char.ofNat 12 :: p.1, p.2))
    | 'n' :: r => (parseStrBodyF f r).map (fun p => ('\n' :: p.1, p.2))
    | 'r' :: r => (parseStrBodyF f r).map (fun p => (Char.ofNat 13 :: p.1, p.2))
    | 't' :: r => (parseStrBodyF f r).map (fun p => ('\t' :: p.1, p.2))
    | 'u' :: a :: b :: c :: d :: r =>
      match hexVal a, hexVal b, hexVal c, hexVal d with
      | some ha, some hb, some hc, some hd =>
        let n := ((ha * 16 + hb) * 16 + hc) * 16 + hd
        if 55296 ≤ n ∧ n ≤ 56319 then
          match r with
          | '\\' :: 'u' :: a2 :: b2 :: c2 :: d2 :: r2 =>
            match hexVal a2, hexVal b2, hexVal c2, hexVal d2 with
            | some ha2, some hb2, some hc2, some hd2 =>
              let m := ((ha2 * 16 + hb2) * 16 + hc2) * 16 + hd2
              if 56320 ≤ m ∧ m ≤ 57343 then
                (parseStrBodyF f r2).map (fun p =>
                  (Char.ofNat (65536 + (n - 55296) * 1024 + (m - 56320))
                    :: p.1, p.2))
              else
                (parseStrBodyF f r).map (fun p => (Char.ofNat n :: p.1, p.2))
            | _, _, _, _ => none
          | _ => (parseStrBodyF f r).map (fun p => (Char.ofNat n :: p.1, p.2))
        else (parseStrBodyF f r).map (fun p => (Char.ofNat n :: p.1, p.2))
      | _, _, _, _ => none
    | _ => none
  | f + 1, c :: rest =>
    if c.toNat < 32 then none
    else (parseStrBodyF f rest).map (fun p => (c :: p.1, p.2))

/-- CPython `py_scanstring` after the opening quote. -/
def parseStrBody (cs : List Char) : Option (List Char × List Char) :=
  parseStrBodyF cs.length cs

/-- Digits to a natural number. -/
def digitsToNat (ds : List Char) : Nat :=
  ds.foldl (fun acc c => acc * 10 + digitVal c) 0

/-- Integer part of the JSON number grammar: `0` or a nonzero digit
followed by digits (no leading zeros). -/
def parseIntPart : List Char → Option (List Char × List Char)
  | [] => none
  | c :: rest =>
    if c = '0' then some (['0'], rest)
    else if isDigitC c then
      let p := rest.span isDigitC
      some (c :: p.1, p.2)
    else none

/-- Optional fraction part `.digits` (present only with at least one
digit, per the JSON number regex). -/
def scanFrac : List Char → Option (List Char × List Char)
  | '.' :: r =>
    match r.span isDigitC with
    | (d :: ds, r') => some (d :: ds, r')
    | ([], _) => none
  | _ => none

/-- Optional exponent part `[eE][+-]?digits` (at least one digit). -/
def scanExp : List Char → Option (List Char × List Char)
  | c :: r =>
    if c = 'e' ∨ c = 'E' then
      match r with
      | s :: r2 =>
        if s = '+' ∨ s = '-' then
          match r2.span isDigitC with
          | (d :: ds, r3) => some (c :: s :: d :: ds, r3)
          | ([], _) => none
        else
          match r.span isDigitC with
          | (d :: ds, r3) => some (c :: d :: ds, r3)
          | ([], _) => none
      | [] => none
    else none
  | [] => none

/-- JSON number per the CPython regex
`(-?(?:0|[1-9]\d*))(\.\d+)?([eE][-+]?\d+)?`: an `Int` when there is no
fraction and no exponent, otherwise a float kept as its lexeme. -/
def parseNumber (cs : List Char) : Option (JVal × List Char) :=
  let sp : Bool × List Char :=
    match cs with
    | '-' :: r => (true, r)
    | _ => (false, cs)
  match parseIntPart sp.2 with
  | none => none
  | some (ip, r1) =>
    let fr := scanFrac r1
    let r2 := match fr with
      | some q => q.2
      | none => r1
    let ex := scanExp r2
    let r3 := match ex with
      | some q => q.2
      | none => r2
    match fr, ex with
    | none, none =>
      let v : Int := Int.ofNat (digitsToNat ip)
      some (JVal.jint (if sp.1 then -v else v), r1)
    | _, _ =>
      let lex := (if sp.1 then ['-'] else []) ++ ip
        ++ (match fr with
            | some q => '.' :: q.1
            | none => [])
        ++ (match ex with
            | some q => q.1
            | none => [])
      some (JVal.jfloat (String.mk lex), r3)

/-- Insert a key into a Python dict under construction: assigning an
existing key keeps its position and replaces the value, a new key is
appended. -/
def insObj (fields : List (String × JVal)) (k : String) (v : JVal) :
    List (String × JVal) :=
  match fields with
  | [] => [(k, v)]
  | (k0, v0) :: rest =>
    if k0 = k then (k0, v) :: rest else (k0, v0) :: insObj rest k v

mutual

/-- CPython `scan_once`: one JSON value at the head of the input
(whitespace already skipped). Fuel bounds the recursion depth; every
recursive call consumes input, so `2 * length + 8` units always
suffice. -/
def parseVal : Nat → List Char → Option (JVal × List Char)
  | 0, _ => none
  | f + 1, cs =>
    match cs with
    | [] => none
    | '{' :: r =>
      match skipWs r with
      | '}' :: r2 => some (JVal.jobj [], r2)
      | r2 => parseObjMembers f r2 []
    | '[' :: r =>
      match skipWs r with
      | ']' :: r2 => some (JVal.jarr [], r2)
      | r2 => parseArrItems f r2 []
    | '"' :: r => (parseStrBody r).map (fun p => (JVal.jstr (String.mk p.1), p.2))
    | 't' :: 'r' :: 'u' :: 'e' :: r => some (JVal.jbool true, r)
    | 'f' :: 'a' :: 'l' :: 's' :: 'e' :: r => some (JVal.jbool false, r)
    | 'n' :: 'u' :: 'l' :: 'l' :: r => some (JVal.jnull, r)
    | 'N' :: 'a' :: 'N' :: r => some (JVal.jfloat "NaN", r)
    | 'I' :: 'n' :: 'f' :: 'i' :: 'n' :: 'i' :: 't' :: 'y' :: r =>
      some (JVal.jfloat "Infinity", r)
    | '-' :: 'I' :: 'n' :: 'f' :: 'i' :: 'n' :: 'i' :: 't' :: 'y' :: r =>
      some (JVal.jfloat "-Infinity", r)
    | _ => parseNumber cs

/-- CPython `JSONObject` member loop: at the start of a key (whitespace
skipped), expecting `"key" : value` then `,` or `}`. -/
def parseObjMembers : Nat → List Char → List (String × JVal) →
    Option (JVal × List Char)
  | 0, _, _ => none
  | f + 1, cs, acc =>
    match cs with
    | '"' :: r =>
      match parseStrBody r with
      | none => none
      | some (key, r1) =>
        match skipWs r1 with
        | ':' :: r2 =>
          match parseVal f (skipWs r2) with
          | none => none
          | some (v, r3) =>
            let acc2 := insObj acc (String.mk key) v
            match skipWs r3 with
            | ',' :: r4 => parseObjMembers f (skipWs r4) acc2
            | '}' :: r4 => some (JVal.jobj acc2, r4)
            | _ => none
        | _ => none
    | _ => none

/-- CPython `JSONArray` item loop: at the start of a value (whitespace
skipped), expecting `value` then `,` or `]`. -/
def parseArrItems : Nat → List Char → List JVal → Option (JVal × List Char)
  | 0, _, _ => none
  | f + 1, cs, acc =>
    match parseVal f cs with
    | none => none
    | some (v, r1) =>
      match skipWs r1 with
      | ',' :: r2 => parseArrItems f (skipWs r2) (acc ++ [v])
      | ']' :: r2 => some (JVal.jarr (acc ++ [v]), r2)
      | _ => none

end

/-- Python `json.loads`: skip leading whitespace, parse one value, skip
trailing whitespace, and reject extra data. -/
def json_loads (txt : List Char) : Option JVal :=
  match parseVal (2 * txt.length + 8) (skipWs txt) with
  | some (v, rest) => if (skipWs rest).isEmpty then some v else none
  | none => none

/-- The fallback dict built on a parse failure (line 165), in the source's
key order: `{"t": None, "ev": "raw", "line": txt}`. -/
def rawObj (txt : List Char) : JVal :=
  JVal.jobj [("t", JVal.jnull), ("ev", JVal.jstr "raw"),
    ("line", JVal.jstr (String.mk txt))]

/-- Lines 162-165: `msg = json.loads(txt)` with the `except` fallback. -/
def decodeRecord (txt : List Char) : JVal :=
  match json_loads txt with
  | some v => v
  | none => rawObj txt

/-- The decoded events of a chunked byte stream, in device arrival
order. -/
def streamEvents (cs : List (List Nat)) : List JVal :=
  (frameRecords cs).map decodeRecord

/-! ### Broadcast fan-out (`serial_reader_task`, lines 166-176)

`clients` is a set of WebSocket connections, modelled as a duplicate-free
list of opaque identities. A delivery attempt `await c.send_str(data)`
either succeeds or raises; which attempts raise is abstracted as a
predicate on subscribers (`fail`). -/

/-- Opaque subscriber identity. -/
abbrev Client := Nat

/-- Outcome of one `publish` (one iteration of the `if clients:` block). -/
structure PublishResult (α : Type) where
  /-- The `send_str` calls made, in iteration order over `list(clients)`. -/
  attempts : List (Client × α)
  /-- The attempts that did not raise (the messages actually received). -/
  delivered : List (Client × α)
  /-- The `dead` list, in the order failures occurred. -/
  dead : List Client
  /-- The subscriber set after the `clients.discard(d)` loop. -/
  clients : List Client

/-- The `for c in list(clients): try: await c.send_str(data) except:
dead.append(c)` loop: returns attempts, successful deliveries, and the
`dead` list. -/
def sendLoop (data : α) (fail : Client → Bool) :
    List Client → List (Client × α) × List (Client × α) × List Client
  | [] => ([], [], [])
  | c :: cs =>
    let r := sendLoop data fail cs
    if fail c then ((c, data) :: r.1, r.2.1, c :: r.2.2)
    else ((c, data) :: r.1, (c, data) :: r.2.1, r.2.2)

/-- The `for d in dead: clients.discard(d)` loop. -/
def discardAll (cl : List Client) (dead : List Client) : List Client :=
  dead.foldl (fun s d => s.erase d) cl

/-- Lines 166-176: one publish of a decoded event. When `clients` is
empty the whole block (including `json.dumps`) is skipped; otherwise the
event is sent to every member of the `list(clients)` snapshot, failures
are collected in `dead`, and the dead are discarded afterwards. The wire
payload `json.dumps(msg)` is identified with `msg` itself (the same
serialization goes to every subscriber; no claim concerns its spelling). -/
def publish (clients : List Client) (fail : Client → Bool) (msg : α) :
    PublishResult α :=
  if clients.isEmpty then ⟨[], [], [], clients⟩
  else
    let r := sendLoop msg fail clients
    ⟨r.1, r.2.1, r.2.2, discardAll clients r.2.2⟩

/-- The reader loop's successive publishes: `fail i s` says whether the
send to subscriber `s` raises during the `i`-th publish. Returns the
final subscriber set and all successful deliveries in send order. -/
def runPublishes (fail : Nat → Client → Bool) :
    Nat → List Client → List α → List Client × List (Client × α)
  | _, cl, [] => (cl, [])
  | i, cl, e :: es =>
    let r := publish cl (fail i) e
    let q := runPublishes fail (i + 1) r.clients es
    (q.1, r.delivered ++ q.2)

/-- The messages a given subscriber received, in order. -/
def receivedBy (s : Client) (sends : List (Client × α)) : List α :=
  sends.filterMap (fun p => if p.1 = s then some p.2 else none)

/-- End-to-end pipeline: serial chunks in, per-subscriber deliveries out. -/
def endToEnd (chunks : List (List Nat)) (cl : List Client)
    (fail : Nat → Client → Bool) : List Client × List (Client × JVal) :=
  runPublishes fail 0 cl (streamEvents chunks)

/-- ASCII text as serial bytes. -/
def asciiBytes (s : String) : List Nat := s.toList.map Char.toNat

/-! ### Publish loop, step view (for the membership-timing claim)

The state visible to other tasks while the send loop of one publish is
suspended at an `await`: which sends are still pending, the `dead` list
so far, and `clients` — which the loop body never mutates. -/

/-- Mid-publish state: pending snapshot entries, `dead` so far, and the
shared `clients` set. -/
structure LoopState where
  /-- Snapshot entries not yet attempted. -/
  pending : List Client
  /-- Failures recorded so far. -/
  dead : List Client
  /-- The shared subscriber set. -/
  clients : List Client
deriving DecidableEq

/-- One iteration of the send loop: attempt the next pending subscriber;
on failure append it to `dead`. `clients` is untouched. -/
def attemptStep (fail : Client → Bool) (st : LoopState) : LoopState :=
  match st.pending with
  | [] => st
  | c :: rest =>
    { pending := rest
      dead := if fail c then st.dead ++ [c] else st.dead
      clients := st.clients }

/-- `n` iterations of the send loop. -/
def stepN (fail : Client → Bool) : Nat → LoopState → LoopState
  | 0, st => st
  | n + 1, st => stepN fail n (attemptStep fail st)

/-- The `dead` list after the send loop finishes, starting from a given
pending list and accumulator. -/
def runAttempts (fail : Client → Bool) : List Client → List Client → List Client
  | [], dead => dead
  | c :: rest, dead =>
    runAttempts fail rest (if fail c then dead ++ [c] else dead)

/-! ### Connection gateway: health endpoint (lines 54-55)

`async def health(_): return web.json_response({"ok": True})` — aiohttp's
`json_response` defaults to HTTP status 200. The handler ignores the
request and touches no shared state, modelled by passing the subscriber
set through unchanged. -/

/-- The `health` handler: (status, body) and the untouched state. -/
def health (clients : List Client) : (Nat × JVal) × List Client :=
  ((200, JVal.jobj [("ok", JVal.jbool true)]), clients)

theorem splitSpec_cons (b : Nat) (bs : List Nat) :
    splitSpec (b :: bs) =
      if b = 10 then ([] :: (splitSpec bs).1, (splitSpec bs).2)
      else
        match (splitSpec bs).1 with
        | [] => ([], b :: (splitSpec bs).2)
        | x :: xs => ((b :: x) :: xs, (splitSpec bs).2) := rfl

theorem splitFirstNL_none_countNL {l : List Nat} (h : splitFirstNL l = none) :
    countNL l = 0 := by
  induction l with
  | nil => rfl
  | cons b bs ih =>
    unfold splitFirstNL at h
    by_cases hb : b = 10
    · simp [hb] at h
    · rw [if_neg hb] at h
      cases hs : splitFirstNL bs with
      | none =>
        have hbs := ih hs
        unfold countNL at hbs ⊢
        simp [List.count_cons, hb, hbs]
      | some p => rcases p with ⟨l', r'⟩; rw [hs] at h; simp at h

theorem countNL_zero_splitFirstNL {l : List Nat} (h : countNL l = 0) :
    splitFirstNL l = none := by
  induction l with
  | nil => rfl
  | cons b bs ih =>
    unfold countNL at h
    simp only [List.count_cons] at h
    by_cases hb : b = 10
    · simp [hb] at h
    · have hbs : countNL bs = 0 := by
        unfold countNL
        simp [hb] at h
        omega
      simp [splitFirstNL, hb, ih hbs]

theorem splitFirstNL_none_splitSpec {l : List Nat} (h : splitFirstNL l = none) :
    splitSpec l = ([], l) := by
  induction l with
  | nil => rfl
  | cons b bs ih =>
    unfold splitFirstNL at h
    by_cases hb : b = 10
    · simp [hb] at h
    · rw [if_neg hb] at h
      cases hs : splitFirstNL bs with
      | none => simp [splitSpec, hb, ih hs]
      | some p => rcases p with ⟨l', r'⟩; rw [hs] at h; simp at h

theorem splitFirstNL_some {l a r : List Nat} (h : splitFirstNL l = some (a, r)) :
    l = a ++ 10 :: r ∧ splitFirstNL a = none := by
  induction l generalizing a r with
  | nil => simp [splitFirstNL] at h
  | cons b bs ih =>
    unfold splitFirstNL at h
    by_cases hb : b = 10
    · rw [if_pos hb] at h
      obtain ⟨rfl, rfl⟩ := by simpa using h
      exact ⟨by simp [hb], rfl⟩
    · rw [if_neg hb] at h
      cases hs : splitFirstNL bs with
      | none => rw [hs] at h; simp at h
      | some p =>
        rcases p with ⟨l', r'⟩
        rw [hs] at h
        obtain ⟨rfl, rfl⟩ : b :: l' = a ∧ r' = r := by simpa using h
        obtain ⟨hbs, hn⟩ := ih hs
        refine ⟨by simp [hbs], ?_⟩
        simp [splitFirstNL, hb, hn]

theorem splitSpec_no_nl_append {a : List Nat} (r : List Nat)
    (h : splitFirstNL a = none) :
    splitSpec (a ++ 10 :: r) = (a :: (splitSpec r).1, (splitSpec r).2) := by
  induction a with
  | nil => simp [splitSpec_cons]
  | cons b bs ih =>
    unfold splitFirstNL at h
    by_cases hb : b = 10
    · simp [hb] at h
    · rw [if_neg hb] at h
      cases hs : splitFirstNL bs with
      | none =>
        have hbs := ih hs
        rw [List.cons_append, splitSpec_cons, if_neg hb, hbs]
      | some p => rcases p with ⟨l', r'⟩; rw [hs] at h; simp at h

theorem drainF_eq_splitSpec :
    ∀ (f : Nat) (l : List Nat), countNL l ≤ f → drainF f l = splitSpec l := by
  intro f
  induction f with
  | zero =>
    intro l hl
    have h0 : countNL l = 0 := Nat.le_zero.mp hl
    rw [drainF, splitFirstNL_none_splitSpec (countNL_zero_splitFirstNL h0)]
  | succ f ih =>
    intro l hl
    cases hs : splitFirstNL l with
    | none => simp only [drainF, hs, splitFirstNL_none_splitSpec hs]
    | some p =>
      rcases p with ⟨a, r⟩
      obtain ⟨rfl, ha⟩ := splitFirstNL_some hs
      have hna : countNL a = 0 := splitFirstNL_none_countNL ha
      have hcount : countNL (a ++ 10 :: r) = countNL r + 1 := by
        unfold countNL at hna ⊢
        simp [List.count_append, List.count_cons, hna]
      have hr : countNL r ≤ f := by omega
      simp only [drainF, hs, ih r hr, splitSpec_no_nl_append r ha]

theorem drain_eq_splitSpec (l : List Nat) : drain l = splitSpec l :=
  drainF_eq_splitSpec _ l (Nat.le_refl _)

theorem countNL_splitSpec_snd (l : List Nat) : countNL (splitSpec l).2 = 0 := by
  induction l with
  | nil => rfl
  | cons b bs ih =>
    rw [splitSpec_cons]
    by_cases hb : b = 10
    · simpa [hb] using ih
    · rw [if_neg hb]
      cases hp : (splitSpec bs).1 with
      | nil =>
        unfold countNL at ih ⊢
        simp [List.count_cons, hb, ih]
      | cons x xs => simpa using ih

theorem consFirst_nil (s : List (List Nat) × List Nat) : consFirst [] s = s := by
  rcases s with ⟨fst, snd⟩
  cases fst <;> simp [consFirst]

theorem splitSpec_append (a b : List Nat) :
    splitSpec (a ++ b) =
      ((splitSpec a).1 ++ (consFirst (splitSpec a).2 (splitSpec b)).1,
        (consFirst (splitSpec a).2 (splitSpec b)).2) := by
  induction a with
  | nil => simp [splitSpec, consFirst_nil]
  | cons c a' ih =>
    rw [List.cons_append, splitSpec_cons, splitSpec_cons, ih]
    by_cases hc : c = 10
    · simp [if_pos hc]
    · rw [if_neg hc, if_neg hc]
      cases hA : (splitSpec a').1 <;> cases hB : (splitSpec b).1 <;>
        simp [consFirst, hA, hB]

theorem processChunks_eq_splitSpec :
    ∀ (cs : List (List Nat)) (buff : List Nat), countNL buff = 0 →
      processChunks buff cs = splitSpec (buff ++ cs.flatten) := by
  intro cs
  induction cs with
  | nil =>
    intro buff h
    simp [processChunks,
      splitFirstNL_none_splitSpec (countNL_zero_splitFirstNL h)]
  | cons c cs ih =>
    intro buff h
    by_cases hc : c = []
    · simpa [processChunks, hc] using ih buff h
    · have hp := drain_eq_splitSpec (buff ++ c)
      have h2 : countNL (drain (buff ++ c)).2 = 0 := by
        rw [hp]; exact countNL_splitSpec_snd _
      have hq := ih _ h2
      rw [hp] at h2 hq
      simp only [processChunks, if_neg hc, hp, hq]
      rw [List.flatten_cons,
        show buff ++ (c ++ cs.flatten) = (buff ++ c) ++ cs.flatten from
          (List.append_assoc _ _ _).symm,
        splitSpec_append (buff ++ c) cs.flatten,
        splitSpec_append ((splitSpec (buff ++ c)).2) cs.flatten,
        splitFirstNL_none_splitSpec (countNL_zero_splitFirstNL h2)]
      simp

/-- C2: for every finite byte sequence and every two ways of partitioning
it into a sequence of non-empty chunks, feeding the chunks to the Line
Framer yields exactly the same sequence of text records; chunk-boundary
placement is not observable in the output. -/
theorem c2_chunking_unobservable (cs1 cs2 : List (List Nat))
    (h1 : ∀ c ∈ cs1, c ≠ []) (h2 : ∀ c ∈ cs2, c ≠ [])
    (hj : cs1.flatten = cs2.flatten) :
    frameRecords cs1 = frameRecords cs2 := by
  unfold frameRecords
  rw [processChunks_eq_splitSpec cs1 [] rfl,
    processChunks_eq_splitSpec cs2 [] rfl, List.nil_append, List.nil_append, hj]

/-- C2 witness: the two-chunk split of `b"A\n"` and the unsplit stream
produce the same records. -/
theorem c2_chunking_unobservable_witness :
    frameRecords [[65], [10]] = frameRecords [[65, 10]] :=
  c2_chunking_unobservable [[65], [10]] [[65, 10]] (by decide) (by decide)
    (by decide)

theorem sendLoop_spec (data : α) (fail : Client → Bool) :
    ∀ cl : List Client,
      sendLoop data fail cl =
        (cl.map (fun c => (c, data)),
          (cl.filter (fun c => !fail c)).map (fun c => (c, data)),
          cl.filter fail) := by
  intro cl
  induction cl with
  | nil => rfl
  | cons c cs ih => by_cases hf : fail c <;> simp [sendLoop, ih, hf]

theorem mem_discardAll {s : Client} :
    ∀ (ds cl : List Client), s ∈ cl → s ∉ ds → s ∈ discardAll cl ds := by
  intro ds
  induction ds with
  | nil => intro cl h _; simpa [discardAll] using h
  | cons d ds ih =>
    intro cl h hnd
    have hne : s ≠ d := fun e => hnd (e ▸ List.mem_cons_self d ds)
    have hm : s ∈ cl.erase d := (List.mem_erase_of_ne hne).mpr h
    have h2 : discardAll cl (d :: ds) = discardAll (cl.erase d) ds := by
      simp [discardAll]
    rw [h2]
    exact ih _ hm (fun hm2 => hnd (List.mem_cons_of_mem _ hm2))

theorem nodup_discardAll :
    ∀ (ds cl : List Client), cl.Nodup → (discardAll cl ds).Nodup := by
  intro ds
  induction ds with
  | nil => intro cl h; simpa [discardAll] using h
  | cons d ds ih =>
    intro cl h
    have h2 : discardAll cl (d :: ds) = discardAll (cl.erase d) ds := by
      simp [discardAll]
    rw [h2]
    exact ih _ (h.erase d)

theorem discardAll_eq_filter :
    ∀ (ds cl : List Client), cl.Nodup →
      discardAll cl ds = cl.filter (fun c => !(decide (c ∈ ds))) := by
  intro ds
  induction ds with
  | nil => intro cl _; simp [discardAll]
  | cons d ds ih =>
    intro cl h
    have h2 : discardAll cl (d :: ds) = discardAll (cl.erase d) ds := by
      simp [discardAll]
    rw [h2, ih _ (h.erase d), List.Nodup.erase_eq_filter h d, List.filter_filter]
    apply List.filter_congr
    intro a _
    by_cases had : a = d <;> by_cases hads : a ∈ ds <;> simp [had, hads]

theorem isEmpty_false_of_ne_nil {cl : List Client} (h : cl ≠ []) :
    cl.isEmpty = false := by
  cases cl with
  | nil => exact absurd rfl h
  | cons c cs => rfl

theorem publish_eq (cl : List Client) (fail : Client → Bool) (msg : α)
    (hne : cl ≠ []) (hnd : cl.Nodup) :
    publish cl fail msg =
      ⟨cl.map (fun c => (c, msg)),
        (cl.filter (fun c => !fail c)).map (fun c => (c, msg)),
        cl.filter fail,
        cl.filter (fun c => !fail c)⟩ := by
  unfold publish
  rw [isEmpty_false_of_ne_nil hne]
  simp only [Bool.false_eq_true, if_false, sendLoop_spec]
  have hcl : discardAll cl (cl.filter fail) = cl.filter (fun c => !fail c) := by
    rw [discardAll_eq_filter _ _ hnd]
    apply List.filter_congr
    intro a ha
    by_cases hf : fail a <;> simp [List.mem_filter, ha, hf]
  rw [hcl]

/-- C1: for every publish to a non-empty subscriber set, a failed delivery
neither prevents nor alters the attempts to every other subscriber in the
snapshot (the attempt list is the full snapshot, independent of which
sends fail), and exactly the subscribers whose attempt failed are
deregistered while all others remain members. -/
theorem c1_failure_isolation (cl : List Client) (fail : Client → Bool)
    (msg : JVal) (hne : cl ≠ []) (hnd : cl.Nodup) :
    (publish cl fail msg).attempts = cl.map (fun c => (c, msg)) ∧
    (publish cl fail msg).dead = cl.filter fail ∧
    (publish cl fail msg).clients = cl.filter (fun c => !fail c) := by
  rw [publish_eq cl fail msg hne hnd]
  exact ⟨rfl, rfl, rfl⟩

/-- C1 witness: two subscribers, the first one's send fails; both are
attempted, only the first is deregistered. -/
theorem c1_failure_isolation_witness :
    (publish [5, 6] (fun c => c == 5) JVal.jnull).attempts =
      [5, 6].map (fun c => (c, JVal.jnull)) ∧
    (publish [5, 6] (fun c => c == 5) JVal.jnull).dead =
      [5, 6].filter (fun c => c == 5) ∧
    (publish [5, 6] (fun c => c == 5) JVal.jnull).clients =
      [5, 6].filter (fun c => !(c == 5)) :=
  c1_failure_isolation [5, 6] (fun c => c == 5) JVal.jnull (by decide)
    (by decide)

/-- C5: publishing to an empty subscriber set attempts nothing, delivers
nothing, records no dead subscribers, leaves the subscriber set unchanged,
and retains no serialization or buffered event (the result carries no
state at all); the `if clients:` guard skips the whole block, so nothing
can raise. -/
theorem c5_empty_publish_noop (fail : Client → Bool) (msg : JVal) :
    publish ([] : List Client) fail msg =
      ⟨[], [], [], ([] : List Client)⟩ := rfl

theorem receivedBy_append (s : Client) (a b : List (Client × α)) :
    receivedBy s (a ++ b) = receivedBy s a ++ receivedBy s b := by
  simp [receivedBy, List.filterMap_append]

theorem receivedBy_map_not_mem {s : Client} (e : α) :
    ∀ l : List Client, s ∉ l → receivedBy s (l.map (fun c => (c, e))) = [] := by
  intro l
  induction l with
  | nil => intro _; rfl
  | cons c cs ih =>
    intro h
    have hcs : c ≠ s := fun e2 => h (e2 ▸ List.mem_cons_self c cs)
    simp only [List.map_cons, receivedBy, List.filterMap_cons, if_neg hcs]
    exact ih (fun hm => h (List.mem_cons_of_mem _ hm))

theorem receivedBy_map_self {s : Client} (e : α) :
    ∀ l : List Client, l.Nodup → s ∈ l →
      receivedBy s (l.map (fun c => (c, e))) = [e] := by
  intro l
  induction l with
  | nil => intro _ h; simp at h
  | cons c cs ih =>
    intro hnd hs
    by_cases hcs : c = s
    · subst hcs
      have hrest := receivedBy_map_not_mem e cs (List.nodup_cons.mp hnd).1
      unfold receivedBy at hrest ⊢
      simp [List.filterMap_cons, hrest]
    · have hmem : s ∈ cs := by
        rcases List.mem_cons.mp hs with h | h
        · exact absurd h.symm hcs
        · exact h
      have hih := ih (List.nodup_cons.mp hnd).2 hmem
      unfold receivedBy at hih ⊢
      simp [List.filterMap_cons, hcs, hih]

theorem mem_publish_clients {s : Client} (cl : List Client)
    (fail : Client → Bool) (e : α) (h : s ∈ cl) (hf : fail s = false) :
    s ∈ (publish cl fail e).clients := by
  have hne : cl ≠ [] := by
    intro h2
    subst h2
    exact absurd h (List.not_mem_nil s)
  unfold publish
  rw [isEmpty_false_of_ne_nil hne]
  simp only [Bool.false_eq_true, if_false, sendLoop_spec]
  exact mem_discardAll _ _ h (by simp [List.mem_filter, hf])

theorem nodup_publish_clients (cl : List Client) (fail : Client → Bool)
    (e : α) (hnd : cl.Nodup) : (publish cl fail e).clients.Nodup := by
  unfold publish
  by_cases hni : cl.isEmpty <;> simp only [hni, if_true, if_false,
    Bool.false_eq_true, Bool.true_eq_false]
  · exact hnd
  · exact nodup_discardAll _ _ hnd

theorem receivedBy_publish_delivered {s : Client} (cl : List Client)
    (fail : Client → Bool) (e : α) (hnd : cl.Nodup) (h : s ∈ cl)
    (hf : fail s = false) :
    receivedBy s (publish cl fail e).delivered = [e] := by
  have hne : cl ≠ [] := by
    intro h2
    subst h2
    exact absurd h (List.not_mem_nil s)
  unfold publish
  rw [isEmpty_false_of_ne_nil hne]
  simp only [Bool.false_eq_true, if_false, sendLoop_spec]
  exact receivedBy_map_self e _ (hnd.filter _) (by simp [List.mem_filter, h, hf])

theorem run_received_all {s : Client} (fail : Nat → Client → Bool)
    (hf : ∀ j, fail j s = false) :
    ∀ (evs : List α) (i : Nat) (cl : List Client), cl.Nodup → s ∈ cl →
      receivedBy s (runPublishes fail i cl evs).2 = evs := by
  intro evs
  induction evs with
  | nil => intro i cl _ _; rfl
  | cons e es ih =>
    intro i cl hnd hs
    simp only [runPublishes]
    rw [receivedBy_append,
      receivedBy_publish_delivered cl (fail i) e hnd hs (hf i),
      ih (i + 1) _ (nodup_publish_clients _ _ _ hnd)
        (mem_publish_clients _ _ _ hs (hf i))]
    rfl

/-- C6: a subscriber that stays registered across a sequence of publishes
(its own sends never fail) receives exactly the published events, in
publish order, which is the device arrival order of the decoded records
(`streamEvents`); failures of other subscribers' deliveries do not
affect this. -/
theorem c6_per_subscriber_order (chunks : List (List Nat))
    (cl : List Client) (fail : Nat → Client → Bool) (s : Client)
    (hnd : cl.Nodup) (hs : s ∈ cl) (hf : ∀ j, fail j s = false) :
    receivedBy s (endToEnd chunks cl fail).2 = streamEvents chunks :=
  run_received_all fail hf _ 0 cl hnd hs

/-- C6 witness: subscribers S1 = 1 and S2 = 2, three device records
E1, E2, E3; S2's delivery fails during E2 (publish index 1), yet S1
receives E1, E2, E3 in order. -/
theorem c6_per_subscriber_order_witness :
    receivedBy 1 (endToEnd [asciiBytes "e1\ne2\ne3\n"] [1, 2]
        (fun j c => c == 2 && j == 1)).2 =
      streamEvents [asciiBytes "e1\ne2\ne3\n"] :=
  c6_per_subscriber_order [asciiBytes "e1\ne2\ne3\n"] [1, 2]
    (fun j c => c == 2 && j == 1) 1 (by decide) (by decide) (fun _ => rfl)

theorem attemptStep_clients (fail : Client → Bool) (st : LoopState) :
    (attemptStep fail st).clients = st.clients := by
  unfold attemptStep
  cases h : st.pending <;> simp

theorem stepN_clients (fail : Client → Bool) :
    ∀ (n : Nat) (st : LoopState), (stepN fail n st).clients = st.clients := by
  intro n
  induction n with
  | zero => intro st; rfl
  | succ n ih =>
    intro st
    rw [stepN, ih, attemptStep_clients]

theorem runAttempts_eq_filter (fail : Client → Bool) :
    ∀ (p d : List Client), runAttempts fail p d = d ++ p.filter fail := by
  intro p
  induction p with
  | nil => intro d; simp [runAttempts]
  | cons c rest ih =>
    intro d
    by_cases hf : fail c <;> simp [runAttempts, hf, ih]

/-- C7 counterexample: subscribers `[0, 1]`, the send to `0` raises. After
the failed attempt to `0` the same publish still has the attempt to `1`
pending, `0` is already on the `dead` list, and yet `0` is still a member
of the shared `clients` set — the code only runs `clients.discard(d)`
after the whole send loop, so the claim that the subscriber is removed
"the instant the attempt fails, at every step of the same publish after
the failed attempt" is false. -/
theorem c7_instant_removal_counterexample :
    (attemptStep (fun c => c == 0) ⟨[0, 1], [], [0, 1]⟩).dead = [0] ∧
    (attemptStep (fun c => c == 0) ⟨[0, 1], [], [0, 1]⟩).pending = [1] ∧
    0 ∈ (attemptStep (fun c => c == 0) ⟨[0, 1], [], [0, 1]⟩).clients := by
  decide

/-- C7 amended: a subscriber whose delivery attempt fails remains a member
of the subscriber set for the rest of that publish's send loop (the loop
never mutates `clients`), and is removed when the publish's trailing
`clients.discard` loop runs — so it is no longer a member once the publish
completes, before the next publish, even though the transport has not
reported closure. -/
theorem c7_removed_at_end_of_publish (cl : List Client)
    (fail : Client → Bool) (msg : JVal) (c : Client) (hnd : cl.Nodup)
    (hc : c ∈ cl) (hf : fail c = true) :
    (∀ k, (stepN fail k ⟨cl, [], cl⟩).clients = cl) ∧
    c ∉ (publish cl fail msg).clients := by
  refine ⟨fun k => stepN_clients fail k _, ?_⟩
  have hne : cl ≠ [] := by
    intro h2
    subst h2
    exact absurd hc (List.not_mem_nil c)
  rw [publish_eq cl fail msg hne hnd]
  simp [List.mem_filter, hf]

/-- C7 amended witness: subscribers `[0, 1]`, the send to `0` raises;
`clients` is unchanged at every intermediate step and `0` is gone after
the publish. -/
theorem c7_removed_at_end_of_publish_witness :
    (∀ k, (stepN (fun c => c == 0) k ⟨[0, 1], [], [0, 1]⟩).clients = [0, 1]) ∧
    0 ∉ (publish [0, 1] (fun c => c == 0) JVal.jnull).clients :=
  c7_removed_at_end_of_publish [0, 1] (fun c => c == 0) JVal.jnull 0
    (by decide) (by decide) (by decide)

/-- C3: every non-empty framed record that `json.loads` rejects becomes
exactly one `raw` event `{"t": None, "ev": "raw", "line": txt}` with the
original text verbatim; end to end, the device line
`b"garbage not json\n"` reaches the single subscriber as exactly one
message whose JSON object equals
`{"ev": "raw", "t": null, "line": "garbage not json"}` (same fields, the
source builds the dict in the order t, ev, line). -/
theorem c3_raw_fallback :
    (∀ txt : List Char, txt ≠ [] → json_loads txt = none →
      decodeRecord txt = rawObj txt) ∧
    (∃ fs, receivedBy 0 (endToEnd [asciiBytes "garbage not json\n"] [0]
        (fun _ _ => false)).2 = [JVal.jobj fs] ∧
      fs.Perm [("ev", JVal.jstr "raw"), ("t", JVal.jnull),
        ("line", JVal.jstr "garbage not json")]) := by
  constructor
  · intro txt _ h
    unfold decodeRecord
    rw [h]
  · exact ⟨[("t", JVal.jnull), ("ev", JVal.jstr "raw"),
      ("line", JVal.jstr "garbage not json")], rfl,
      List.Perm.swap _ _ _⟩

/-- C3 witness: a concrete unparseable record is wrapped verbatim. -/
theorem c3_raw_fallback_witness :
    decodeRecord ("zz".toList) = rawObj ("zz".toList) :=
  c3_raw_fallback.1 ("zz".toList) (by decide) rfl

/-- C4 counterexample: the record `5` is valid JSON that is not an Event
shape, yet the decoder passes the parsed value through — it is not
wrapped as a `raw` event, and a subscriber receives the bare value.
(The `except` clause only triggers on a `json.loads` failure; no shape
check exists.) -/
theorem c4_shape_passthrough_counterexample :
    decodeRecord ("5".toList) = JVal.jint 5 ∧
    decodeRecord ("5".toList) ≠ rawObj ("5".toList) ∧
    receivedBy 0 (endToEnd [asciiBytes "5\n"] [0] (fun _ _ => false)).2 =
      [JVal.jint 5] :=
  ⟨rfl, fun h => JVal.noConfusion h, rfl⟩

/-- C4 amended: every record that parses as JSON — of any shape — is
passed through to subscribers as the parsed value; only records that fail
`json.loads` are wrapped as `raw` events. -/
theorem c4_parsed_value_passthrough (txt : List Char) (v : JVal)
    (h : json_loads txt = some v) : decodeRecord txt = v := by
  unfold decodeRecord
  rw [h]

/-- C4 amended witness: the bare number `5` decodes to itself. -/
theorem c4_parsed_value_passthrough_witness :
    decodeRecord ("5".toList) = JVal.jint 5 :=
  c4_parsed_value_passthrough ("5".toList) (JVal.jint 5) rfl

/-- C8: the bytes of `{"ev":"turn","raw":5,"detents":1,"delta":1}` plus a
newline, split across the two reads `b'{"ev":"tu'` and the remainder,
deliver to a single registered subscriber exactly one message whose JSON
object is `{"ev": "turn", "raw": 5, "detents": 1, "delta": 1}`. -/
theorem c8_split_read_one_message :
    receivedBy 0 (endToEnd [asciiBytes "\x7b\"ev\":\"tu",
        asciiBytes "rn\",\"raw\":5,\"detents\":1,\"delta\":1\x7d\n"] [0]
        (fun _ _ => false)).2 =
      [JVal.jobj [("ev", JVal.jstr "turn"), ("raw", JVal.jint 5),
        ("detents", JVal.jint 1), ("delta", JVal.jint 1)]] := rfl

/-- C9: `GET /health` always returns the body `{"ok": true}` with HTTP
status 200, for every state of the subscriber set, and leaves the state
unchanged (the handler ignores its request and has no side effects). -/
theorem c9_health_constant (cl : List Client) :
    health cl = ((200, JVal.jobj [("ok", JVal.jbool true)]), cl) := rfl

/-- C10 counterexample: the claim also asserts the text handed to the
Event Decoder "never carries leading or trailing whitespace from the
device line"; on the record bytes `b"\xff A"` the strip removes nothing
(0xFF is not whitespace), the invalid byte 0xFF is dropped by
`decode("utf-8", "ignore")`, and the resulting record text `" A"` begins
with the whitespace byte 32 that came from the device line. -/
theorem c10_strip_counterexample :
    toRecord [255, 32, 65] = some [' ', 'A'] ∧ isPySpace 32 = true := by
  constructor
  · rfl
  · rfl

/-- C10 amended: the record is stripped of leading and trailing whitespace
bytes before UTF-8 decoding and before the emptiness check, so a record
of only whitespace bytes yields no event at all, and the text handed to
the Event Decoder is exactly the UTF-8("ignore") decoding of the stripped
bytes (which can expose interior whitespace at the ends only when invalid
bytes are dropped). -/
theorem c10_strip_before_decode :
    (∀ l : List Nat, (∀ b ∈ l, isPySpace b = true) → toRecord l = none) ∧
    (∀ (l : List Nat) (txt : List Char), toRecord l = some txt →
      txt = pyDecode (stripBytes l) ∧ txt ≠ []) := by
  constructor
  · intro l h
    have hstrip : stripBytes l = [] := by
      unfold stripBytes
      have h1 : l.dropWhile isPySpace = [] := by
        rw [List.dropWhile_eq_nil_iff]
        exact h
      rw [h1]
      rfl
    unfold toRecord
    rw [hstrip]
    rfl
  · intro l txt h
    unfold toRecord at h
    by_cases he : (pyDecode (stripBytes l)).isEmpty
    · rw [if_pos he] at h
      exact absurd h (by simp)
    · rw [if_neg he] at h
      have : pyDecode (stripBytes l) = txt := by
        exact Option.some.inj h
      constructor
      · exact this.symm
      · rw [← this]
        intro h2
        rw [h2] at he
        exact he rfl

/-- C10 amended witness: a whitespace-only record yields no event. -/
theorem c10_strip_before_decode_witness :
    toRecord [32, 9, 13] = none :=
  c10_strip_before_decode.1 [32, 9, 13] (by decide)
